import Mathlib

/-!
# Verification of the trade-secrets reconciliation controller

Shallow embedding of the trade-secrets operator (`src/controller.rs`,
`src/crd.rs`, `src/duration.rs`, `src/main.rs`): a Kubernetes controller that
copies fields from a source secret to a destination secret according to a
`TradeSecret` custom resource, requeueing each resource at a fixed interval.

Byte-string values (`k8s_openapi::ByteString`) are modelled as `List Nat`;
the data maps of secrets as functions `String → Option Bytes`; the Kubernetes
API as an explicit `Cluster` environment; effects (get and patch calls) as
explicit logs in the reconciliation result; Rust panics (`expect`/`unwrap`)
as an explicit `panicked` outcome.
-/

set_option linter.unusedVariables false

namespace TradeSecrets

/-- Opaque byte-string secret values (`k8s_openapi::ByteString`). -/
abbrev Bytes := List Nat

/-- From `crd.rs`: `PatchCopyItem`: one copy operation `source → destination`. -/
structure PatchCopyItem where
  source : String
  destination : String
deriving DecidableEq

/-- From `crd.rs`: `PatchStrategy`: the only variant is `Copy { items }`. -/
inductive PatchStrategy where
  | Copy (items : List PatchCopyItem)

/-- From `controller.rs`: `ReconcilerError`: the per-pass error enum.  All three
variants are nullary, exactly as in the source. -/
inductive ReconcilerError where
  | SecretNotFound
  | SourceFieldMissing
  | Unknown
deriving DecidableEq

/-- From `crd.rs`: `TradeSecretSpec`. -/
structure TradeSecretSpec where
  source : String
  destination : String
  strategy : PatchStrategy

/-- The relevant part of `kube`'s `ObjectMeta`: optional namespace and name. -/
structure ObjectMeta where
  ns : Option String
  name : Option String

/-- A `TradeSecret` custom-resource instance. -/
structure TradeSecret where
  metadata : ObjectMeta
  spec : TradeSecretSpec

/-- A Kubernetes `Secret`: its `data` field is an optional map from key to
byte-string value (`Option<BTreeMap<String, ByteString>>`). -/
structure SecretObject where
  data : Option (String → Option Bytes)

/-- Model of `secret.data.as_ref().and_then(|data| data.get(k))`: field lookup through
the optional data map. -/
def secretField (s : SecretObject) (k : String) : Option Bytes :=
  s.data.bind (fun d => d k)

/-- Lookup in an association list built by repeated `HashMap::insert`:
the LAST inserted binding for a key wins (entries are in insertion order). -/
def alistLookup {α : Type} : List (String × α) → String → Option α
  | [], _ => none
  | p :: rest, k =>
    match alistLookup rest k with
    | some v => some v
    | none => if p.1 = k then some p.2 else none

/-- The last `some` value produced by `f` over a list, scanning left to
right.  Used to state which mapping wins under last-write-wins. -/
def lastSome? {α β : Type} (f : α → Option β) : List α → Option β
  | [] => none
  | x :: xs =>
    match lastSome? f xs with
    | some y => some y
    | none => f x

/-- Stage 1 of the diff (`controller.rs` lines 94–106): collect
`(item.source, sourceData[item.source])` for every mapping, failing with
`SourceFieldMissing` when any source key is absent.  Rust's
`collect::<Result<HashMap<_,_>,_>>` is fail-fast; the resulting entry list is
in insertion order. -/
def sourceValues : List PatchCopyItem → (String → Option Bytes) →
    Except ReconcilerError (List (String × Bytes))
  | [], _ => Except.ok []
  | item :: rest, srcData =>
    match srcData item.source with
    | none => Except.error ReconcilerError.SourceFieldMissing
    | some v =>
      match sourceValues rest srcData with
      | Except.error e => Except.error e
      | Except.ok tail => Except.ok ((item.source, v) :: tail)

/-- Stage 2 of the diff (`controller.rs` lines 108–121): collect
`(item.destination, destData[item.destination])` for every mapping; absence
is recorded as `none`, never an error. -/
def destValues (items : List PatchCopyItem) (dstData : String → Option Bytes) :
    List (String × Option Bytes) :=
  items.map (fun item => (item.destination, dstData item.destination))

/-- Stage 3 of the diff (`controller.rs` lines 123–142): for each mapping,
look its source value and destination value up in the stage-1/2 maps
(the source's `.expect(...)` calls are modelled by the `none` = panic
result), and keep `(item.destination, source_value)` exactly when
`dest_value.is_none() || *source_value != *dest_value.unwrap()`, i.e. when
`dest_value ≠ some source_value`.  The entry list is in iteration order, so
`alistLookup` (last-insert-wins) gives the resulting `HashMap`'s content. -/
def updatesStage : List PatchCopyItem → List (String × Bytes) →
    List (String × Option Bytes) → Option (List (String × Bytes))
  | [], _, _ => some []
  | item :: rest, svs, dvs =>
    match alistLookup svs item.source, alistLookup dvs item.destination with
    | some source_value, some dest_value =>
      match updatesStage rest svs dvs with
      | none => none
      | some tail =>
        some (if dest_value = some source_value then tail
              else (item.destination, source_value) :: tail)
    | _, _ => none

/-- Result of the diff computation: the `updates` map, a `ReconcilerError`,
or a panic (an `.expect` in stage 3 firing — provably unreachable). -/
inductive DiffResult where
  | panic
  | fail (e : ReconcilerError)
  | ok (updates : List (String × Bytes))
deriving DecidableEq

/-- The full diff computation of `controller.rs` lines 92–142, composing the
three stages. -/
def computeUpdates (items : List PatchCopyItem)
    (srcData dstData : String → Option Bytes) : DiffResult :=
  match sourceValues items srcData with
  | Except.error e => DiffResult.fail e
  | Except.ok svs =>
    match updatesStage items svs (destValues items dstData) with
    | none => DiffResult.panic
    | some upd => DiffResult.ok upd

/-- The merge-patch body `{"data": <updates>}` issued against the destination
secret, modelled structurally (serde serialization is injective on it). -/
structure MergeDoc where
  data : List (String × Bytes)
deriving DecidableEq

/-- One `Api::patch` call: target secret name and merge document. -/
structure PatchCall where
  name : String
  body : MergeDoc
deriving DecidableEq

/-- Model of `kube_runtime`'s `ReconcilerAction`: an optional requeue delay
(in seconds). -/
structure ReconcilerAction where
  requeue_after : Option Nat
deriving DecidableEq

/-- Model of `Ctx::requeue_action` (`controller.rs` lines 50–54): requeue after the
configured fixed interval. -/
def requeue_action (requeue_time : Nat) : ReconcilerAction :=
  { requeue_after := some requeue_time }

/-- Outcome of one reconciliation pass: a Rust panic, an error, or success
with a `ReconcilerAction`. -/
inductive PassOutcome where
  | panicked
  | failed (e : ReconcilerError)
  | succeeded (action : ReconcilerAction)
deriving DecidableEq

/-- One reconciliation pass together with its observable side effects:
the secret names fetched via `Api::get`, and the patch calls issued. -/
structure PassResult where
  outcome : PassOutcome
  fetches : List String
  patches : List PatchCall
deriving DecidableEq

/-- The external cluster: namespaced secret store plus whether a patch call
succeeds (any patch failure is mapped to `ReconcilerError::Unknown`). -/
structure Cluster where
  secrets : String → String → Option SecretObject
  patchSucceeds : Bool

/-- The reconciler (`controller.rs` `reconcile`, lines 62–172):
  * `.expect` on the namespace and `.unwrap()` on the name panic when absent;
  * fetching source then destination secret, each failure mapped to
    `SecretNotFound`;
  * for `PatchStrategy::Copy`, the diff computation of lines 92–142;
  * if the update map is empty, return success without patching;
  * otherwise issue exactly one patch `{"data": updates}` against the
    destination secret, mapping patch failure to `Unknown`;
  * every success returns `Ctx::requeue_action`. -/
def reconcile (trade : TradeSecret) (cluster : Cluster) (requeue_time : Nat) :
    PassResult :=
  match trade.metadata.ns with
  | none => ⟨PassOutcome.panicked, [], []⟩
  | some ns =>
    match trade.metadata.name with
    | none => ⟨PassOutcome.panicked, [], []⟩
    | some _ =>
      match cluster.secrets ns trade.spec.source with
      | none => ⟨PassOutcome.failed ReconcilerError.SecretNotFound,
                 [trade.spec.source], []⟩
      | some source_secret =>
        match cluster.secrets ns trade.spec.destination with
        | none => ⟨PassOutcome.failed ReconcilerError.SecretNotFound,
                   [trade.spec.source, trade.spec.destination], []⟩
        | some dest_secret =>
          match trade.spec.strategy with
          | PatchStrategy.Copy items =>
            match computeUpdates items (secretField source_secret)
                (secretField dest_secret) with
            | DiffResult.panic =>
              ⟨PassOutcome.panicked,
               [trade.spec.source, trade.spec.destination], []⟩
            | DiffResult.fail e =>
              ⟨PassOutcome.failed e,
               [trade.spec.source, trade.spec.destination], []⟩
            | DiffResult.ok upd =>
              if upd = [] then
                ⟨PassOutcome.succeeded (requeue_action requeue_time),
                 [trade.spec.source, trade.spec.destination], []⟩
              else
                if cluster.patchSucceeds then
                  ⟨PassOutcome.succeeded (requeue_action requeue_time),
                   [trade.spec.source, trade.spec.destination],
                   [⟨trade.spec.destination, ⟨upd⟩⟩]⟩
                else
                  ⟨PassOutcome.failed ReconcilerError.Unknown,
                   [trade.spec.source, trade.spec.destination],
                   [⟨trade.spec.destination, ⟨upd⟩⟩]⟩

/-- From `controller.rs`: `error_policy` (lines 177–179): ignore the error and
requeue after the fixed interval. -/
def error_policy (e : ReconcilerError) (requeue_time : Nat) : ReconcilerAction :=
  requeue_action requeue_time

/-- Applying an update map to destination data: each updated key takes its
new value, all other keys are unchanged (the store's merge-patch semantics,
spec section 6). -/
def applyUpdates (upd : List (String × Bytes))
    (dstData : String → Option Bytes) : String → Option Bytes :=
  fun k =>
    match alistLookup upd k with
    | some v => some v
    | none => dstData k

/-- From `crd.rs`: one entry of the CRD's `spec.versions` list. -/
structure VersionInfo where
  name : String
deriving DecidableEq

/-- From `crd.rs`: the part of the CRD spec inspected by `check_crd_status`. -/
structure CrdSpec where
  versions : Option (List VersionInfo)
deriving DecidableEq

/-- A registered `CustomResourceDefinition`. -/
structure CustomResourceDefinition where
  spec : CrdSpec
deriving DecidableEq

def CRD_NAME : String := "tradesecrets.secrets.ohnozombi.es"

def CRD_VERSION : String := "v1alpha1"

/-- From `crd.rs`: `check_crd_status` (lines 40–61): fetch the CRD (modelled as the
optional input, `none` = get failed), require the `versions` field, require
`versions.len() == 1` (the single-element match models the length check
followed by `versions[0]`), require `versions[0].name == CRD_VERSION`. -/
def check_crd_status (crd : Option CustomResourceDefinition) :
    Except String Unit :=
  match crd with
  | none => Except.error ("Could not find the crd: " ++ CRD_NAME)
  | some ts_crd =>
    match ts_crd.spec.versions with
    | none => Except.error "The CRD is missing the version field."
    | some versions =>
      match versions with
      | [v] =>
        if v.name = CRD_VERSION then Except.ok ()
        else Except.error ("CRD is not the expected version: " ++ CRD_VERSION)
      | _ => Except.error "Only expected one version in the CRD."

/-- Process startup: either aborted by the preflight check or the control
loop starts. -/
inductive StartupResult where
  | aborted (msg : String)
  | loopStarted
deriving DecidableEq

/-- From `controller.rs`: `run_controller` (lines 201–204): `check_crd_status` runs
first and its failure aborts startup (`?` propagates to `main`); only on
success is the controller loop started. -/
def run_controller (crd : Option CustomResourceDefinition) : StartupResult :=
  match check_crd_status crd with
  | Except.error msg => StartupResult.aborted msg
  | Except.ok _ => StartupResult.loopStarted

/-- Model of `str::trim`: drop whitespace from both ends (on the char list). -/
def trimChars (cs : List Char) : List Char :=
  ((cs.dropWhile Char.isWhitespace).reverse.dropWhile Char.isWhitespace).reverse

/-- Numeric value of a list of decimal digit characters. -/
def digitsToNat (cs : List Char) : Nat :=
  cs.foldl (fun acc c => acc * 10 + (c.toNat - 48)) 0

/-- The value `u64::MAX + 1`: a decimal literal at or above this bound fails Rust's
`str::parse::<u64>`. -/
def U64_LIMIT : Nat := 18446744073709551616

/-- From `duration.rs`: `Duration::from_str` (lines 18–42), returning the duration
in seconds.  The regex `^(?P<value>\d+)(?P<unit>[smh])?$` against the trimmed
input is modelled by taking the maximal leading digit run as `value` and
requiring the remainder to be empty or a single unit character; a missing
unit defaults to seconds.  `value.parse::<u64>()` restricts the digits to
ASCII and the value below `2^64`; `value * multiplier` is the wrapping `u64`
product. -/
def durationFromStr (source : String) : Except String Nat :=
  let cs := trimChars source.data
  let value_str := cs.takeWhile Char.isDigit
  let unit_str := cs.dropWhile Char.isDigit
  if value_str.isEmpty then Except.error ("Invalid duration: " ++ source)
  else if unit_str = [] ∨ unit_str = ['s'] ∨ unit_str = ['m'] ∨ unit_str = ['h']
  then
    let mult : Nat :=
      if unit_str = ['h'] then 3600 else if unit_str = ['m'] then 60 else 1
    let value := digitsToNat value_str
    if value < U64_LIMIT then Except.ok ((value * mult) % U64_LIMIT)
    else Except.error "number too large to fit in target type"
  else Except.error ("Invalid duration: " ++ source)

/-- From `controller.rs`: `ControllerCommand::Run`: the `requeue_time` option's
default value string. -/
def DEFAULT_REQUEUE_TIME : String := "5m"

/-! ## Association-list map lemmas -/

theorem alistLookup_cons {α : Type} (p : String × α) (m : List (String × α))
    (k : String) :
    alistLookup (p :: m) k =
      match alistLookup m k with
      | some v => some v
      | none => if p.1 = k then some p.2 else none := rfl

theorem alistLookup_mem {α : Type} {m : List (String × α)} {k : String} {v : α}
    (h : alistLookup m k = some v) : (k, v) ∈ m := by
  induction m with
  | nil => simp [alistLookup] at h
  | cons p rest ih =>
    rw [alistLookup_cons] at h
    cases hrest : alistLookup rest k with
    | some w =>
      rw [hrest] at h
      cases h
      exact List.mem_cons_of_mem _ (ih hrest)
    | none =>
      rw [hrest] at h
      by_cases hp : p.1 = k
      · rw [if_pos hp] at h
        obtain ⟨a, b⟩ := p
        cases h
        cases hp
        exact List.mem_cons_self _ _
      · rw [if_neg hp] at h
        cases h

theorem alistLookup_isSome_of_mem {α : Type} {m : List (String × α)}
    {k : String} {v : α} (h : (k, v) ∈ m) : (alistLookup m k).isSome := by
  induction m with
  | nil => cases h
  | cons p rest ih =>
    rw [alistLookup_cons]
    cases hrest : alistLookup rest k with
    | some w => rfl
    | none =>
      rcases List.mem_cons.mp h with hh | ht
      · rw [if_pos (by rw [← hh])]
        rfl
      · have := ih ht
        rw [hrest] at this
        cases this

theorem lastSome?_cons {α β : Type} (f : α → Option β) (x : α) (xs : List α) :
    lastSome? f (x :: xs) =
      match lastSome? f xs with
      | some y => some y
      | none => f x := rfl

theorem lastSome?_eq_none {α β : Type} {f : α → Option β} {l : List α}
    (h : lastSome? f l = none) : ∀ x ∈ l, f x = none := by
  induction l with
  | nil => intro x hx; cases hx
  | cons y ys ih =>
    rw [lastSome?_cons] at h
    cases hys : lastSome? f ys with
    | some v => rw [hys] at h; cases h
    | none =>
      rw [hys] at h
      intro x hx
      rcases List.mem_cons.mp hx with hh | ht
      · rw [hh]; exact h
      · exact ih hys x ht

theorem lastSome?_none_of_all {α β : Type} {f : α → Option β} {l : List α}
    (h : ∀ x ∈ l, f x = none) : lastSome? f l = none := by
  induction l with
  | nil => rfl
  | cons y ys ih =>
    rw [lastSome?_cons, ih (fun x hx => h x (List.mem_cons_of_mem _ hx))]
    exact h y (List.mem_cons_self _ _)

theorem lastSome?_some_mem {α β : Type} {f : α → Option β} {l : List α} {v : β}
    (h : lastSome? f l = some v) : ∃ x ∈ l, f x = some v := by
  induction l with
  | nil => cases h
  | cons y ys ih =>
    rw [lastSome?_cons] at h
    cases hys : lastSome? f ys with
    | some w =>
      rw [hys] at h
      cases h
      obtain ⟨x, hx, hfx⟩ := ih hys
      exact ⟨x, List.mem_cons_of_mem _ hx, hfx⟩
    | none =>
      rw [hys] at h
      exact ⟨y, List.mem_cons_self _ _, h⟩

/-! ## Stage-1 (`sourceValues`) lemmas -/

theorem sourceValues_isSome {items : List PatchCopyItem}
    {srcData : String → Option Bytes} {svs : List (String × Bytes)}
    (h : sourceValues items srcData = Except.ok svs) :
    ∀ it ∈ items, (srcData it.source).isSome := by
  induction items generalizing svs with
  | nil => intro it hit; cases hit
  | cons item rest ih =>
    rw [sourceValues] at h
    cases hsv : srcData item.source with
    | none => rw [hsv] at h; cases h
    | some v =>
      rw [hsv] at h
      cases hrest : sourceValues rest srcData with
      | error e => rw [hrest] at h; cases h
      | ok tail =>
        rw [hrest] at h
        intro it hit
        rcases List.mem_cons.mp hit with hh | ht
        · rw [hh, hsv]; rfl
        · exact ih hrest it ht

theorem sourceValues_entries {items : List PatchCopyItem}
    {srcData : String → Option Bytes} {svs : List (String × Bytes)}
    (h : sourceValues items srcData = Except.ok svs) :
    ∀ p ∈ svs, srcData p.1 = some p.2 := by
  induction items generalizing svs with
  | nil =>
    rw [sourceValues] at h
    cases h
    intro p hp; cases hp
  | cons item rest ih =>
    rw [sourceValues] at h
    cases hsv : srcData item.source with
    | none => rw [hsv] at h; cases h
    | some v =>
      rw [hsv] at h
      cases hrest : sourceValues rest srcData with
      | error e => rw [hrest] at h; cases h
      | ok tail =>
        rw [hrest] at h
        cases h
        intro p hp
        rcases List.mem_cons.mp hp with hh | ht
        · rw [hh]; exact hsv
        · exact ih hrest p ht

theorem sourceValues_total {items : List PatchCopyItem}
    {srcData : String → Option Bytes}
    (h : ∀ it ∈ items, (srcData it.source).isSome) :
    ∃ svs, sourceValues items srcData = Except.ok svs := by
  induction items with
  | nil => exact ⟨[], rfl⟩
  | cons item rest ih =>
    obtain ⟨v, hv⟩ := Option.isSome_iff_exists.mp (h item (List.mem_cons_self _ _))
    obtain ⟨tail, htail⟩ := ih (fun it hit => h it (List.mem_cons_of_mem _ hit))
    exact ⟨(item.source, v) :: tail, by rw [sourceValues, hv, htail]⟩

theorem sourceValues_lookup {items : List PatchCopyItem}
    {srcData : String → Option Bytes} {svs : List (String × Bytes)}
    (h : sourceValues items srcData = Except.ok svs) :
    ∀ it ∈ items, alistLookup svs it.source = srcData it.source := by
  intro it hit
  cases hl : alistLookup svs it.source with
  | some w => exact (sourceValues_entries h _ (alistLookup_mem hl)).symm
  | none =>
    exfalso
    obtain ⟨v, hv⟩ :=
      Option.isSome_iff_exists.mp (sourceValues_isSome h it hit)
    have hmem : (it.source, v) ∈ svs := by
      clear hl
      induction items generalizing svs with
      | nil => cases hit
      | cons item rest ih =>
        rw [sourceValues] at h
        cases hsv : srcData item.source with
        | none => rw [hsv] at h; cases h
        | some w =>
          rw [hsv] at h
          cases hrest : sourceValues rest srcData with
          | error e => rw [hrest] at h; cases h
          | ok tail =>
            rw [hrest] at h
            cases h
            rcases List.mem_cons.mp hit with hh | ht
            · rw [hh] at hv ⊢
              rw [hsv] at hv
              cases hv
              exact List.mem_cons_self _ _
            · exact List.mem_cons_of_mem _ (ih hrest ht)
    have := alistLookup_isSome_of_mem hmem
    rw [hl] at this
    cases this

theorem sourceValues_error {items : List PatchCopyItem}
    {srcData : String → Option Bytes} {e : ReconcilerError}
    (h : sourceValues items srcData = Except.error e) :
    e = ReconcilerError.SourceFieldMissing := by
  induction items with
  | nil => rw [sourceValues] at h; cases h
  | cons item rest ih =>
    rw [sourceValues] at h
    cases hsv : srcData item.source with
    | none => rw [hsv] at h; cases h; rfl
    | some v =>
      rw [hsv] at h
      cases hrest : sourceValues rest srcData with
      | error e2 =>
        rw [hrest] at h
        cases h
        exact ih hrest
      | ok tail => rw [hrest] at h; cases h

theorem sourceValues_missing {items : List PatchCopyItem}
    {srcData : String → Option Bytes}
    (h : ∃ it ∈ items, srcData it.source = none) :
    sourceValues items srcData = Except.error ReconcilerError.SourceFieldMissing := by
  cases hres : sourceValues items srcData with
  | ok svs =>
    obtain ⟨it, hit, hnone⟩ := h
    have := sourceValues_isSome hres it hit
    rw [hnone] at this
    cases this
  | error e =>
    have : e = ReconcilerError.SourceFieldMissing := sourceValues_error hres
    rw [this]

/-! ## Stage-2 (`destValues`) lemmas -/

theorem destValues_entries {items : List PatchCopyItem}
    {dstData : String → Option Bytes} {p : String × Option Bytes}
    (hp : p ∈ destValues items dstData) : p.2 = dstData p.1 := by
  obtain ⟨it, _, hit⟩ := List.mem_map.mp hp
  rw [← hit]

theorem destValues_lookup {items : List PatchCopyItem}
    {dstData : String → Option Bytes} {it : PatchCopyItem} (hit : it ∈ items) :
    alistLookup (destValues items dstData) it.destination =
      some (dstData it.destination) := by
  cases hl : alistLookup (destValues items dstData) it.destination with
  | some w =>
    have : w = dstData it.destination := destValues_entries (alistLookup_mem hl)
    rw [this]
  | none =>
    exfalso
    have hmem : (it.destination, dstData it.destination) ∈ destValues items dstData :=
      List.mem_map.mpr ⟨it, hit, rfl⟩
    have := alistLookup_isSome_of_mem hmem
    rw [hl] at this
    cases this

/-! ## Characterization of the computed update map -/

/-- The contribution of one mapping to the update map at destination key `d`:
its source value when it targets `d` and that value differs from the
destination's current value under `d`, nothing otherwise. -/
def diffCandidate (srcData dstData : String → Option Bytes) (d : String)
    (it : PatchCopyItem) : Option Bytes :=
  if it.destination = d ∧ srcData it.source ≠ dstData d then srcData it.source
  else none

theorem updatesStage_charact (srcData dstData : String → Option Bytes)
    (items : List PatchCopyItem) (svs : List (String × Bytes))
    (dvs : List (String × Option Bytes))
    (H1 : ∀ it ∈ items, alistLookup svs it.source = srcData it.source)
    (H2 : ∀ it ∈ items, alistLookup dvs it.destination = some (dstData it.destination))
    (H3 : ∀ it ∈ items, (srcData it.source).isSome) :
    ∃ upd, updatesStage items svs dvs = some upd ∧
      ∀ d, alistLookup upd d = lastSome? (diffCandidate srcData dstData d) items := by
  induction items with
  | nil => exact ⟨[], rfl, fun d => rfl⟩
  | cons it0 rest ih =>
    obtain ⟨v0, hv0⟩ :=
      Option.isSome_iff_exists.mp (H3 it0 (List.mem_cons_self _ _))
    obtain ⟨tail, htail, hchar⟩ := ih
      (fun it hit => H1 it (List.mem_cons_of_mem _ hit))
      (fun it hit => H2 it (List.mem_cons_of_mem _ hit))
      (fun it hit => H3 it (List.mem_cons_of_mem _ hit))
    have h1 : alistLookup svs it0.source = some v0 := by
      rw [H1 it0 (List.mem_cons_self _ _), hv0]
    have h2 : alistLookup dvs it0.destination = some (dstData it0.destination) :=
      H2 it0 (List.mem_cons_self _ _)
    by_cases heq : dstData it0.destination = some v0
    · refine ⟨tail, ?_, ?_⟩
      · simp only [updatesStage, h1, h2, htail]
        rw [if_pos heq]
      · intro d
        rw [hchar d, lastSome?_cons]
        cases hr : lastSome? (diffCandidate srcData dstData d) rest with
        | some y => rfl
        | none =>
          show none = diffCandidate srcData dstData d it0
          rw [diffCandidate, if_neg]
          rintro ⟨hd, hne⟩
          exact hne (by rw [hv0, ← hd, heq])
    · refine ⟨(it0.destination, v0) :: tail, ?_, ?_⟩
      · simp only [updatesStage, h1, h2, htail]
        rw [if_neg heq]
      · intro d
        rw [alistLookup_cons, lastSome?_cons, ← hchar d]
        cases hr : alistLookup tail d with
        | some w => rfl
        | none =>
          show (if it0.destination = d then some v0 else none) =
            diffCandidate srcData dstData d it0
          rw [diffCandidate]
          by_cases hd : it0.destination = d
          · rw [if_pos hd, if_pos ⟨hd, by rw [hv0, ← hd]; exact fun hc => heq hc.symm⟩, hv0]
          · rw [if_neg hd, if_neg (fun hc => hd hc.1)]

theorem computeUpdates_charact_aux (items : List PatchCopyItem)
    (srcData dstData : String → Option Bytes)
    (h : ∀ it ∈ items, (srcData it.source).isSome) :
    ∃ upd, computeUpdates items srcData dstData = DiffResult.ok upd ∧
      ∀ d, alistLookup upd d = lastSome? (diffCandidate srcData dstData d) items := by
  obtain ⟨svs, hsvs⟩ := sourceValues_total h
  obtain ⟨upd, hupd, hchar⟩ :=
    updatesStage_charact srcData dstData items svs (destValues items dstData)
      (sourceValues_lookup hsvs) (fun it hit => destValues_lookup hit) h
  exact ⟨upd, by simp only [computeUpdates, hsvs, hupd], hchar⟩

/-! ## Concrete fixtures (used by witnesses and counterexamples) -/

def demoItems : List PatchCopyItem := [⟨"token", "apiToken"⟩]

def demoSrcData : String → Option Bytes :=
  fun k => if k = "token" then some [97, 98, 99] else none

def demoDstData : String → Option Bytes := fun _ => none

def demoSrcSecret : SecretObject := ⟨some demoSrcData⟩

def demoDstSecret : SecretObject := ⟨some (fun _ => none)⟩

def demoTrade : TradeSecret :=
  ⟨⟨some "default", some "demo"⟩,
   ⟨"src-secret", "dst-secret", PatchStrategy.Copy demoItems⟩⟩

def demoCluster : Cluster :=
  ⟨fun ns name =>
    if ns = "default" then
      if name = "src-secret" then some demoSrcSecret
      else if name = "dst-secret" then some demoDstSecret
      else none
    else none,
   true⟩

def typoTrade : TradeSecret :=
  ⟨⟨some "default", some "typo"⟩,
   ⟨"src-secret", "dst-secret", PatchStrategy.Copy [⟨"tokn", "apiToken"⟩]⟩⟩

def namelessTrade : TradeSecret :=
  ⟨⟨some "default", none⟩,
   ⟨"src-secret", "dst-secret", PatchStrategy.Copy demoItems⟩⟩

/-! ## Claim theorems -/

/-- C1: for every mapping list whose source keys are all present in the
source data, the diff computation succeeds, and the update map contains an
entry under a destination key `d` exactly when some mapping targeting `d` has
a source value that differs (byte-exactly, absence counting as different)
from the destination's current value under `d`; the recorded value is the
source value of the last (rightmost) such differing mapping
(`lastSome? (diffCandidate ..)`). -/
theorem C1_computeUpdates_entries (items : List PatchCopyItem)
    (srcData dstData : String → Option Bytes)
    (h : ∀ it ∈ items, (srcData it.source).isSome) :
    ∃ upd, computeUpdates items srcData dstData = DiffResult.ok upd ∧
      ∀ d, alistLookup upd d = lastSome? (diffCandidate srcData dstData d) items :=
  computeUpdates_charact_aux items srcData dstData h

theorem C1_witness :
    (∀ it ∈ demoItems, (demoSrcData it.source).isSome) ∧
    (∃ upd, computeUpdates demoItems demoSrcData demoDstData = DiffResult.ok upd ∧
      ∀ d, alistLookup upd d =
        lastSome? (diffCandidate demoSrcData demoDstData d) demoItems) :=
  ⟨by decide, C1_computeUpdates_entries demoItems demoSrcData demoDstData (by decide)⟩

/-- C2: when some mapping's source key is absent from the source secret's
data, the pass fails with `SourceFieldMissing` and no patch call is issued
(fail-fast, destination untouched). -/
theorem C2_missing_source_fail_fast (trade : TradeSecret) (cluster : Cluster)
    (rt : Nat) (ns0 name0 : String) (src dst : SecretObject)
    (items : List PatchCopyItem)
    (hns : trade.metadata.ns = some ns0)
    (hname : trade.metadata.name = some name0)
    (hsrc : cluster.secrets ns0 trade.spec.source = some src)
    (hdst : cluster.secrets ns0 trade.spec.destination = some dst)
    (hstrat : trade.spec.strategy = PatchStrategy.Copy items)
    (hmiss : ∃ it ∈ items, secretField src it.source = none) :
    (reconcile trade cluster rt).outcome =
      PassOutcome.failed ReconcilerError.SourceFieldMissing ∧
    (reconcile trade cluster rt).patches = [] := by
  have hcu : computeUpdates items (secretField src) (secretField dst) =
      DiffResult.fail ReconcilerError.SourceFieldMissing := by
    rw [computeUpdates, sourceValues_missing hmiss]
  simp only [reconcile, hns, hname, hsrc, hdst, hstrat, hcu]
  exact ⟨trivial, trivial⟩

theorem C2_witness :
    typoTrade.metadata.ns = some "default" ∧
    typoTrade.metadata.name = some "typo" ∧
    demoCluster.secrets "default" typoTrade.spec.source = some demoSrcSecret ∧
    demoCluster.secrets "default" typoTrade.spec.destination = some demoDstSecret ∧
    (∃ it ∈ [(⟨"tokn", "apiToken"⟩ : PatchCopyItem)],
      secretField demoSrcSecret it.source = none) ∧
    ((reconcile typoTrade demoCluster 300).outcome =
        PassOutcome.failed ReconcilerError.SourceFieldMissing ∧
     (reconcile typoTrade demoCluster 300).patches = []) :=
  ⟨rfl, rfl, rfl, rfl, ⟨⟨"tokn", "apiToken"⟩, by decide, rfl⟩,
   C2_missing_source_fail_fast typoTrade demoCluster 300 "default" "typo"
     demoSrcSecret demoDstSecret [⟨"tokn", "apiToken"⟩]
     rfl rfl rfl rfl rfl ⟨⟨"tokn", "apiToken"⟩, by decide, rfl⟩⟩

/-- C3: for a pass reaching the diff stage, an empty update map issues no
patch and succeeds with the standard requeue action; a non-empty update map
issues exactly one patch, against the destination secret, whose body is the
merge document `{"data": <update map>}`. -/
theorem C3_patch_iff_nonempty (trade : TradeSecret) (cluster : Cluster)
    (rt : Nat) (ns0 name0 : String) (src dst : SecretObject)
    (items : List PatchCopyItem) (upd : List (String × Bytes))
    (hns : trade.metadata.ns = some ns0)
    (hname : trade.metadata.name = some name0)
    (hsrc : cluster.secrets ns0 trade.spec.source = some src)
    (hdst : cluster.secrets ns0 trade.spec.destination = some dst)
    (hstrat : trade.spec.strategy = PatchStrategy.Copy items)
    (hupd : computeUpdates items (secretField src) (secretField dst) =
      DiffResult.ok upd) :
    (upd = [] →
      (reconcile trade cluster rt).patches = [] ∧
      (reconcile trade cluster rt).outcome =
        PassOutcome.succeeded (requeue_action rt)) ∧
    (upd ≠ [] →
      (reconcile trade cluster rt).patches = [⟨trade.spec.destination, ⟨upd⟩⟩]) := by
  simp only [reconcile, hns, hname, hsrc, hdst, hstrat, hupd]
  constructor
  · intro he
    rw [if_pos he]
    exact ⟨rfl, rfl⟩
  · intro he
    rw [if_neg he]
    cases hps : cluster.patchSucceeds <;> simp [hps]

theorem C3_witness :
    computeUpdates demoItems (secretField demoSrcSecret)
      (secretField demoDstSecret) = DiffResult.ok [("apiToken", [97, 98, 99])] ∧
    (reconcile demoTrade demoCluster 300).patches =
      [⟨"dst-secret", ⟨[("apiToken", [97, 98, 99])]⟩⟩] :=
  ⟨by decide,
   (C3_patch_iff_nonempty demoTrade demoCluster 300 "default" "demo"
      demoSrcSecret demoDstSecret demoItems [("apiToken", [97, 98, 99])]
      rfl rfl rfl rfl rfl (by decide)).2 (by decide)⟩

/-- C10: a `TradeSecret` with a namespace but no `metadata.name` makes the
reconciler panic (the `unwrap()` in the diagnostic `eprintln!`) before any
secret is fetched: the result is the panic outcome with empty fetch and patch
logs, not one of the `ReconcilerError` variants. -/
theorem C10_nameless_panics (trade : TradeSecret) (cluster : Cluster) (rt : Nat)
    (ns0 : String) (hns : trade.metadata.ns = some ns0)
    (hname : trade.metadata.name = none) :
    reconcile trade cluster rt =
      { outcome := PassOutcome.panicked, fetches := [], patches := [] } := by
  simp only [reconcile, hns, hname]

theorem C10_witness :
    namelessTrade.metadata.ns = some "default" ∧
    namelessTrade.metadata.name = none ∧
    reconcile namelessTrade demoCluster 300 =
      { outcome := PassOutcome.panicked, fetches := [], patches := [] } :=
  ⟨rfl, rfl, C10_nameless_panics namelessTrade demoCluster 300 "default" rfl rfl⟩

def c4Items : List PatchCopyItem := [⟨"a", "d"⟩, ⟨"b", "d"⟩]

def c4SrcData : String → Option Bytes :=
  fun k => if k = "a" then some [0] else if k = "b" then some [1] else none

/-- C4 counterexample: with two mappings sharing destination `"d"` but
carrying different source values, applying the computed update map and
recomputing does NOT yield an empty update map (the diff oscillates):
all source keys are present, the first pass computes
`{"d" ↦ [1]}` (last entry wins), yet the second pass still wants
`{"d" ↦ [0]}`. -/
theorem C4_counterexample :
    c4Items.all (fun it => (c4SrcData it.source).isSome) = true ∧
    computeUpdates c4Items c4SrcData demoDstData =
      DiffResult.ok [("d", [0]), ("d", [1])] ∧
    computeUpdates c4Items c4SrcData
        (applyUpdates [("d", [0]), ("d", [1])] demoDstData) =
      DiffResult.ok [("d", [0])] ∧
    [(("d", [0]) : String × Bytes)] ≠ [] := by decide

/-- C4 (amended): the fixed-point property holds provided any two
mappings sharing a destination key carry equal source values (in particular
whenever destination keys are pairwise distinct): applying the computed
update map to the destination data and recomputing yields the empty update
map. -/
theorem C4_fixpoint_amended (items : List PatchCopyItem)
    (srcData dstData : String → Option Bytes)
    (h : ∀ it ∈ items, (srcData it.source).isSome)
    (hdup : ∀ it1 ∈ items, ∀ it2 ∈ items,
      it1.destination = it2.destination → srcData it1.source = srcData it2.source)
    (upd : List (String × Bytes))
    (hupd : computeUpdates items srcData dstData = DiffResult.ok upd) :
    computeUpdates items srcData (applyUpdates upd dstData) = DiffResult.ok [] := by
  obtain ⟨upd', hu', c'⟩ := computeUpdates_charact_aux items srcData dstData h
  rw [hupd] at hu'
  cases hu'
  have key : ∀ it ∈ items, applyUpdates upd dstData it.destination = srcData it.source := by
    intro it hit
    rw [applyUpdates]
    cases hl : alistLookup upd it.destination with
    | some v =>
      rw [c' it.destination] at hl
      obtain ⟨x, hx, hfx⟩ := lastSome?_some_mem hl
      rw [diffCandidate] at hfx
      by_cases hc : x.destination = it.destination ∧ srcData x.source ≠ dstData it.destination
      · rw [if_pos hc] at hfx
        rw [hdup it hit x hx hc.1.symm, hfx]
      · rw [if_neg hc] at hfx
        cases hfx
    | none =>
      rw [c' it.destination] at hl
      have hall := lastSome?_eq_none hl it hit
      rw [diffCandidate] at hall
      by_cases hc : it.destination = it.destination ∧
          srcData it.source ≠ dstData it.destination
      · rw [if_pos hc] at hall
        obtain ⟨v, hv⟩ := Option.isSome_iff_exists.mp (h it hit)
        rw [hv] at hall
        cases hall
      · have : srcData it.source = dstData it.destination := by
          by_contra hne
          exact hc ⟨rfl, hne⟩
        rw [this]
  obtain ⟨upd2, hu2, c2⟩ :=
    computeUpdates_charact_aux items srcData (applyUpdates upd dstData) h
  have hempty : upd2 = [] := by
    cases upd2 with
    | nil => rfl
    | cons p t =>
      exfalso
      obtain ⟨k, v⟩ := p
      have hsome := alistLookup_isSome_of_mem
        (List.mem_cons_self ((k, v) : String × Bytes) t)
      have hnone : alistLookup ((k, v) :: t) k = none := by
        rw [c2 k]
        apply lastSome?_none_of_all
        intro x hx
        rw [diffCandidate]
        by_cases hc : x.destination = k ∧
            srcData x.source ≠ applyUpdates upd dstData k
        · exfalso
          have := key x hx
          rw [hc.1] at this
          exact hc.2 this.symm
        · rw [if_neg hc]
      rw [hnone] at hsome
      cases hsome
  rw [hempty] at hu2
  exact hu2

theorem C4_witness :
    (∀ it ∈ demoItems, (demoSrcData it.source).isSome) ∧
    computeUpdates demoItems demoSrcData demoDstData =
      DiffResult.ok [("apiToken", [97, 98, 99])] ∧
    computeUpdates demoItems demoSrcData
      (applyUpdates [("apiToken", [97, 98, 99])] demoDstData) = DiffResult.ok [] :=
  ⟨by decide, by decide,
   C4_fixpoint_amended demoItems demoSrcData demoDstData (by decide)
     (by decide) [("apiToken", [97, 98, 99])] (by decide)⟩

/-- C5: the error policy returns the fixed-delay requeue action for every
error, and every successful reconciliation pass returns that same action;
its `requeue_after` field is `some` of the fixed interval (exactly one
scheduled re-invocation, no backoff, no fast path). -/
theorem C5_requeue_always (rt : Nat) :
    (∀ e : ReconcilerError, error_policy e rt = requeue_action rt) ∧
    (∀ (trade : TradeSecret) (cluster : Cluster) (a : ReconcilerAction),
      (reconcile trade cluster rt).outcome = PassOutcome.succeeded a →
      a = requeue_action rt) ∧
    (requeue_action rt).requeue_after = some rt := by
  refine ⟨fun e => rfl, ?_, rfl⟩
  intro trade cluster a h
  rw [reconcile] at h
  repeat' split at h
  all_goals simp_all

theorem C5_witness :
    error_policy ReconcilerError.Unknown 300 = requeue_action 300 ∧
    (reconcile demoTrade demoCluster 300).outcome =
      PassOutcome.succeeded (requeue_action 300) ∧
    requeue_action 300 = requeue_action 300 :=
  ⟨(C5_requeue_always 300).1 ReconcilerError.Unknown, by decide,
   (C5_requeue_always 300).2.1 demoTrade demoCluster (requeue_action 300) (by decide)⟩

def c6TradeNoSrc : TradeSecret :=
  ⟨⟨some "default", some "x"⟩,
   ⟨"absent", "dst-secret", PatchStrategy.Copy []⟩⟩

def c6TradeNoDst : TradeSecret :=
  ⟨⟨some "default", some "x"⟩,
   ⟨"src-secret", "absent", PatchStrategy.Copy []⟩⟩

/-- C6 counterexample: the error variants carry no payloads.  Two
different missing source keys (`"tokn"` and `"zzzz"`) produce identical
`SourceFieldMissing` values (no key recorded), and a missing source secret
and a missing destination secret produce identical `SecretNotFound` values
(no role recorded), so the errors do not discriminate as the claim states. -/
theorem C6_counterexample :
    computeUpdates [⟨"tokn", "apiToken"⟩] demoSrcData demoDstData =
      DiffResult.fail ReconcilerError.SourceFieldMissing ∧
    computeUpdates [⟨"zzzz", "apiToken"⟩] demoSrcData demoDstData =
      DiffResult.fail ReconcilerError.SourceFieldMissing ∧
    (reconcile c6TradeNoSrc demoCluster 300).outcome =
      PassOutcome.failed ReconcilerError.SecretNotFound ∧
    (reconcile c6TradeNoDst demoCluster 300).outcome =
      PassOutcome.failed ReconcilerError.SecretNotFound := by decide

/-- C6 (amended): the per-pass errors are discriminated by variant only
and carry no payloads: a failed source fetch and a failed destination fetch
both yield the same `SecretNotFound` value (the role is not identified), and
every diff-stage failure yields the same `SourceFieldMissing` value
regardless of which key was missing. -/
theorem C6_errors_payloadless (trade : TradeSecret) (cluster : Cluster)
    (rt : Nat) (ns0 name0 : String)
    (hns : trade.metadata.ns = some ns0)
    (hname : trade.metadata.name = some name0) :
    (cluster.secrets ns0 trade.spec.source = none →
      (reconcile trade cluster rt).outcome =
        PassOutcome.failed ReconcilerError.SecretNotFound) ∧
    (∀ src, cluster.secrets ns0 trade.spec.source = some src →
      cluster.secrets ns0 trade.spec.destination = none →
      (reconcile trade cluster rt).outcome =
        PassOutcome.failed ReconcilerError.SecretNotFound) ∧
    (∀ (items1 items2 : List PatchCopyItem) (s1 s2 : String → Option Bytes)
        (e1 e2 : ReconcilerError),
      sourceValues items1 s1 = Except.error e1 →
      sourceValues items2 s2 = Except.error e2 → e1 = e2) := by
  refine ⟨?_, ?_, ?_⟩
  · intro hs
    simp only [reconcile, hns, hname, hs]
  · intro src hs hd
    simp only [reconcile, hns, hname, hs, hd]
  · intro items1 items2 s1 s2 e1 e2 h1 h2
    rw [sourceValues_error h1, sourceValues_error h2]

theorem C6_witness :
    demoCluster.secrets "default" c6TradeNoSrc.spec.source = none ∧
    (reconcile c6TradeNoSrc demoCluster 300).outcome =
      PassOutcome.failed ReconcilerError.SecretNotFound :=
  ⟨rfl,
   (C6_errors_payloadless c6TradeNoSrc demoCluster 300 "default" "x" rfl rfl).1 rfl⟩

/-! ## Permutation invariance -/

theorem lastSome?_perm {α β : Type} {f : α → Option β} {l1 l2 : List α}
    (hp : l1.Perm l2)
    (huniq : ∀ x ∈ l1, ∀ y ∈ l1, (f x).isSome → (f y).isSome → f x = f y) :
    lastSome? f l1 = lastSome? f l2 := by
  induction hp with
  | nil => rfl
  | cons z hp ih =>
    rw [lastSome?_cons, lastSome?_cons,
      ih (fun a ha b hb => huniq a (List.mem_cons_of_mem _ ha) b
        (List.mem_cons_of_mem _ hb))]
  | swap x y l =>
    rw [lastSome?_cons, lastSome?_cons, lastSome?_cons, lastSome?_cons]
    cases ht : lastSome? f l with
    | some v => rfl
    | none =>
      cases hfx : f x with
      | none =>
        cases hfy : f y with
        | none => simp [hfx, hfy]
        | some b => simp [hfx, hfy]
      | some a =>
        cases hfy : f y with
        | none => simp [hfx, hfy]
        | some b =>
          have hmx : x ∈ y :: x :: l :=
            List.mem_cons_of_mem _ (List.mem_cons_self _ _)
          have hmy : y ∈ y :: x :: l := List.mem_cons_self _ _
          have : f x = f y :=
            huniq x hmx y hmy (by rw [hfx]; rfl) (by rw [hfy]; rfl)
          rw [hfx, hfy] at this
          simp [hfx, hfy, this]
  | trans h12 h23 ih12 ih23 =>
    rw [ih12 huniq,
      ih23 (fun a ha b hb =>
        huniq a (h12.mem_iff.mpr ha) b (h12.mem_iff.mpr hb))]

theorem pairwise_destination_uniq {items : List PatchCopyItem}
    (hdist : items.Pairwise (fun a b => a.destination ≠ b.destination))
    {x y : PatchCopyItem} (hx : x ∈ items) (hy : y ∈ items)
    (hxy : x.destination = y.destination) : x = y := by
  induction items with
  | nil => cases hx
  | cons z t ih =>
    rcases List.mem_cons.mp hx with rfl | hx' <;>
      rcases List.mem_cons.mp hy with h | hy'
    · rw [h]
    · exact absurd hxy (List.rel_of_pairwise_cons hdist hy')
    · rw [h] at hxy
      exact absurd hxy.symm (List.rel_of_pairwise_cons hdist hx')
    · exact ih (List.Pairwise.of_cons hdist) hx' hy'

/-- C7: the diff computation is deterministic (a pure function of its
inputs), and for mapping lists with pairwise-distinct destination keys,
permuting the mappings leaves the computed update map unchanged (equal
lookups at every destination key). -/
theorem C7_deterministic_perm (items1 items2 : List PatchCopyItem)
    (srcData dstData : String → Option Bytes)
    (hperm : items1.Perm items2)
    (hdist : items1.Pairwise (fun a b => a.destination ≠ b.destination))
    (h : ∀ it ∈ items1, (srcData it.source).isSome) :
    computeUpdates items1 srcData dstData = computeUpdates items1 srcData dstData ∧
    ∃ upd1 upd2,
      computeUpdates items1 srcData dstData = DiffResult.ok upd1 ∧
      computeUpdates items2 srcData dstData = DiffResult.ok upd2 ∧
      ∀ d, alistLookup upd1 d = alistLookup upd2 d := by
  refine ⟨rfl, ?_⟩
  obtain ⟨upd1, h1, c1⟩ := computeUpdates_charact_aux items1 srcData dstData h
  obtain ⟨upd2, h2, c2⟩ := computeUpdates_charact_aux items2 srcData dstData
    (fun it hit => h it (hperm.mem_iff.mpr hit))
  refine ⟨upd1, upd2, h1, h2, fun d => ?_⟩
  rw [c1 d, c2 d]
  apply lastSome?_perm hperm
  intro x hx y hy hfx hfy
  have hdest : ∀ z : PatchCopyItem,
      (diffCandidate srcData dstData d z).isSome → z.destination = d := by
    intro z hz
    rw [diffCandidate] at hz
    by_cases hc : z.destination = d ∧ srcData z.source ≠ dstData d
    · exact hc.1
    · rw [if_neg hc] at hz
      cases hz
  have : x = y :=
    pairwise_destination_uniq hdist hx hy (by rw [hdest x hfx, hdest y hfy])
  rw [this]

def c7Src : String → Option Bytes :=
  fun k => if k = "token" then some [1] else if k = "user" then some [2] else none

def c7Items1 : List PatchCopyItem := [⟨"token", "apiToken"⟩, ⟨"user", "apiUser"⟩]

def c7Items2 : List PatchCopyItem := [⟨"user", "apiUser"⟩, ⟨"token", "apiToken"⟩]

theorem C7_witness :
    c7Items1.Perm c7Items2 ∧
    c7Items1.Pairwise (fun a b => a.destination ≠ b.destination) ∧
    (∃ upd1 upd2,
      computeUpdates c7Items1 c7Src demoDstData = DiffResult.ok upd1 ∧
      computeUpdates c7Items2 c7Src demoDstData = DiffResult.ok upd2 ∧
      ∀ d, alistLookup upd1 d = alistLookup upd2 d) :=
  ⟨by decide, by decide,
   (C7_deterministic_perm c7Items1 c7Items2 c7Src demoDstData
      (by decide) (by decide) (by decide)).2⟩

/-! ## Preflight check -/

theorem check_crd_status_ok_iff (crd : Option CustomResourceDefinition) :
    check_crd_status crd = Except.ok () ↔
      ∃ c v, crd = some c ∧ c.spec.versions = some [v] ∧ v.name = CRD_VERSION := by
  cases crd with
  | none => simp [check_crd_status]
  | some c =>
    cases hv : c.spec.versions with
    | none => simp [check_crd_status, hv]
    | some vs =>
      cases vs with
      | nil => simp [check_crd_status, hv]
      | cons v rest =>
        cases rest with
        | nil =>
          by_cases hn : v.name = CRD_VERSION
          · simp [check_crd_status, hv, hn]
          · simp [check_crd_status, hv, hn]
        | cons v2 rest2 => simp [check_crd_status, hv]

/-- C8 counterexample: a CRD that is present but declares zero schema
versions (`versions = Some([])`): none of the claim's failure conditions
holds (the definition is not absent, it does not declare more than one
version, and there is no single declared version to mismatch), yet the
preflight check fails and startup aborts. -/
theorem C8_counterexample :
    run_controller (some ⟨⟨some []⟩⟩) =
      StartupResult.aborted "Only expected one version in the CRD." ∧
    (some (⟨⟨some []⟩⟩ : CustomResourceDefinition)).isSome = true ∧
    ([] : List VersionInfo).length ≤ 1 ∧
    ([] : List VersionInfo).length ≠ 1 := by
  refine ⟨rfl, rfl, by decide, by decide⟩

/-- C8 (amended): the preflight check gates the control loop: startup
reaches the control loop exactly when the registered definition is present,
declares exactly one schema version, and that version is the expected
`"v1alpha1"`; in every other case (absent definition, missing versions
field, zero or several versions, or a version mismatch) startup aborts. -/
theorem C8_preflight_gate (crd : Option CustomResourceDefinition) :
    run_controller crd = StartupResult.loopStarted ↔
      ∃ c v, crd = some c ∧ c.spec.versions = some [v] ∧ v.name = CRD_VERSION := by
  rw [← check_crd_status_ok_iff, run_controller]
  cases hc : check_crd_status crd with
  | error m =>
    simp only [hc]
    constructor
    · intro h; cases h
    · intro h; cases h
  | ok u =>
    cases u
    simp only [hc]

theorem C8_witness :
    run_controller (some ⟨⟨some [⟨"v1alpha1"⟩]⟩⟩) = StartupResult.loopStarted :=
  (C8_preflight_gate (some ⟨⟨some [⟨"v1alpha1"⟩]⟩⟩)).mpr
    ⟨⟨⟨some [⟨"v1alpha1"⟩]⟩⟩, ⟨"v1alpha1"⟩, rfl, rfl, rfl⟩

/-! ## Duration parser -/

/-- The multiplier attached to a unit suffix (`1` for a missing unit or `s`,
`60` for `m`, `3600` for `h`). -/
def unitMultiplier : List Char → Nat
  | [] => 1
  | ['s'] => 1
  | ['m'] => 60
  | ['h'] => 3600
  | _ => 0

theorem takeWhile_all_append {α : Type} {p : α → Bool} {l1 l2 : List α}
    (h : ∀ x ∈ l1, p x) : (l1 ++ l2).takeWhile p = l1 ++ l2.takeWhile p := by
  induction l1 with
  | nil => rfl
  | cons x xs ih =>
    rw [List.cons_append, List.takeWhile_cons_of_pos (h x (List.mem_cons_self _ _)),
      ih (fun y hy => h y (List.mem_cons_of_mem _ hy)), List.cons_append]

theorem dropWhile_all_append {α : Type} {p : α → Bool} {l1 l2 : List α}
    (h : ∀ x ∈ l1, p x) : (l1 ++ l2).dropWhile p = l2.dropWhile p := by
  induction l1 with
  | nil => rfl
  | cons x xs ih =>
    rw [List.cons_append, List.dropWhile_cons_of_pos (h x (List.mem_cons_self _ _)),
      ih (fun y hy => h y (List.mem_cons_of_mem _ hy))]

theorem durationFromStr_accepts (s : String) (ds rest : List Char)
    (hdec : trimChars s.data = ds ++ rest) (hne : ds ≠ [])
    (hdig : ∀ c ∈ ds, c.isDigit)
    (hrest : rest = [] ∨ rest = ['s'] ∨ rest = ['m'] ∨ rest = ['h'])
    (hlt : digitsToNat ds < U64_LIMIT) :
    durationFromStr s =
      Except.ok ((digitsToNat ds * unitMultiplier rest) % U64_LIMIT) := by
  have htake : (trimChars s.data).takeWhile Char.isDigit = ds := by
    rw [hdec, takeWhile_all_append hdig]
    rcases hrest with h | h | h | h <;> rw [h] <;> simp
  have hdrop : (trimChars s.data).dropWhile Char.isDigit = rest := by
    rw [hdec, dropWhile_all_append hdig]
    rcases hrest with h | h | h | h <;> rw [h] <;> rfl
  have hemp : ds.isEmpty = false := by
    cases ds with
    | nil => exact absurd rfl hne
    | cons c t => rfl
  simp only [durationFromStr, htake, hdrop, hemp]
  rcases hrest with h | h | h | h <;> rw [h] <;> rw [if_pos hlt] <;> rfl

theorem durationFromStr_ok_decomp (s : String) {n : Nat}
    (h : durationFromStr s = Except.ok n) :
    ∃ ds rest, trimChars s.data = ds ++ rest ∧ ds ≠ [] ∧
      (∀ c ∈ ds, c.isDigit) ∧
      (rest = [] ∨ rest = ['s'] ∨ rest = ['m'] ∨ rest = ['h']) ∧
      digitsToNat ds < U64_LIMIT := by
  simp only [durationFromStr] at h
  by_cases h0 : ((trimChars s.data).takeWhile Char.isDigit).isEmpty = true
  · rw [if_pos h0] at h
    simp at h
  · rw [if_neg h0] at h
    have hne : (trimChars s.data).takeWhile Char.isDigit ≠ [] := by
      intro hnil
      exact h0 (by rw [hnil]; rfl)
    by_cases h1 : (trimChars s.data).dropWhile Char.isDigit = [] ∨
        (trimChars s.data).dropWhile Char.isDigit = ['s'] ∨
        (trimChars s.data).dropWhile Char.isDigit = ['m'] ∨
        (trimChars s.data).dropWhile Char.isDigit = ['h']
    · rw [if_pos h1] at h
      by_cases h2 : digitsToNat ((trimChars s.data).takeWhile Char.isDigit) < U64_LIMIT
      · exact ⟨_, _, (List.takeWhile_append_dropWhile Char.isDigit (trimChars s.data)).symm,
          hne, fun c hc => List.mem_takeWhile_imp hc, h1, h2⟩
      · rw [if_neg h2] at h
        simp at h
    · rw [if_neg h1] at h
      simp at h

/-- C9 counterexample: `"99999999999999999999"` consists solely of
decimal digits (a plain non-negative integer, which the claim says is
accepted and interpreted as seconds), yet the parser rejects it because it
does not fit in an unsigned 64-bit integer. -/
theorem C9_counterexample :
    "99999999999999999999".data.all Char.isDigit = true ∧
    durationFromStr "99999999999999999999" =
      Except.error "number too large to fit in target type" :=
  ⟨by decide, rfl⟩

/-- C9 (amended): after trimming surrounding whitespace, the parser
accepts exactly a non-empty string of decimal digits denoting a value below
`2^64`, optionally suffixed with `s`, `m` or `h`; the result is the value
times 1, 60 or 3600 seconds (a bare integer counts as seconds; the product
is the wrapping 64-bit product).  `"5m"` parses to 300 seconds, `"30"` to 30
seconds, `"5x"` is rejected, and the default `"5m"` is five minutes. -/
theorem C9_duration_amended :
    (∀ (s : String) (ds rest : List Char),
      trimChars s.data = ds ++ rest → ds ≠ [] → (∀ c ∈ ds, c.isDigit) →
      (rest = [] ∨ rest = ['s'] ∨ rest = ['m'] ∨ rest = ['h']) →
      digitsToNat ds < U64_LIMIT →
      durationFromStr s =
        Except.ok ((digitsToNat ds * unitMultiplier rest) % U64_LIMIT)) ∧
    (∀ (s : String) (n : Nat), durationFromStr s = Except.ok n →
      ∃ ds rest, trimChars s.data = ds ++ rest ∧ ds ≠ [] ∧
        (∀ c ∈ ds, c.isDigit) ∧
        (rest = [] ∨ rest = ['s'] ∨ rest = ['m'] ∨ rest = ['h']) ∧
        digitsToNat ds < U64_LIMIT) ∧
    durationFromStr "5m" = Except.ok 300 ∧
    durationFromStr "30" = Except.ok 30 ∧
    (durationFromStr "5x").isOk = false ∧
    durationFromStr DEFAULT_REQUEUE_TIME = Except.ok 300 :=
  ⟨durationFromStr_accepts, fun s n h => durationFromStr_ok_decomp s h,
   rfl, rfl, rfl, rfl⟩

theorem C9_witness :
    trimChars "7h".data = ['7'] ++ ['h'] ∧
    durationFromStr "7h" =
      Except.ok ((digitsToNat ['7'] * unitMultiplier ['h']) % U64_LIMIT) ∧
    (digitsToNat ['7'] * unitMultiplier ['h']) % U64_LIMIT = 25200 :=
  ⟨by decide,
   C9_duration_amended.1 "7h" ['7'] ['h'] (by decide) (by decide)
     (by decide) (Or.inr (Or.inr (Or.inr rfl))) (by decide),
   by decide⟩

end TradeSecrets
